import Mathlib

/-!
# Verification of `Q1/Q1.js` (alternateArrangement) and `Q2/Q2.js` (zoo ticketing)

Numbers are modelled as `Int` (the claims quantify over integers), JavaScript
arrays as `List`, and `output.push(x)` as `output ++ [x]`.
-/

namespace Q1

/-- First `while` loop of `alternateArrangement` (Q1.js lines 35-38): while both
cursors are in bounds, push `positiveNumbers[i++]` and then `negativeNumbers[j++]`.
Returns the state `(i, j, output)` at loop exit. -/
def alternateLoop (positiveNumbers negativeNumbers : List Int) (i j : Nat)
    (output : List Int) : Nat × Nat × List Int :=
  if h : i < positiveNumbers.length ∧ j < negativeNumbers.length then
    alternateLoop positiveNumbers negativeNumbers (i + 1) (j + 1)
      ((output ++ [positiveNumbers.get ⟨i, h.1⟩]) ++ [negativeNumbers.get ⟨j, h.2⟩])
  else
    (i, j, output)
termination_by positiveNumbers.length - i
decreasing_by omega

/-- Second `while` loop (Q1.js lines 39-41): push the positives left from cursor `i`.
Returns `(i, output)` at loop exit. -/
def positivesLoop (positiveNumbers : List Int) (i : Nat) (output : List Int) :
    Nat × List Int :=
  if h : i < positiveNumbers.length then
    positivesLoop positiveNumbers (i + 1) (output ++ [positiveNumbers.get ⟨i, h⟩])
  else
    (i, output)
termination_by positiveNumbers.length - i
decreasing_by omega

/-- Third `while` loop (Q1.js lines 42-44): push the negatives left from cursor `j`.
Returns `(j, output)` at loop exit. -/
def negativesLoop (negativeNumbers : List Int) (j : Nat) (output : List Int) :
    Nat × List Int :=
  if h : j < negativeNumbers.length then
    negativesLoop negativeNumbers (j + 1) (output ++ [negativeNumbers.get ⟨j, h⟩])
  else
    (j, output)
termination_by negativeNumbers.length - j
decreasing_by omega

/-- Embedding of `alternateArrangement` (Q1.js lines 29-46). -/
def alternateArrangement (arr : List Int) : List Int :=
  let positiveNumbers := arr.filter (fun num => decide (num > 0))
  let negativeNumbers := arr.filter (fun num => decide (num < 0))
  let output : List Int := []
  let s1 := alternateLoop positiveNumbers negativeNumbers 0 0 output
  let s2 := positivesLoop positiveNumbers s1.1 s1.2.2
  let s3 := negativesLoop negativeNumbers s1.2.1 s2.2
  s3.2

/-- The positive partition of the input, in input order. -/
def positives (arr : List Int) : List Int := arr.filter (fun num => decide (num > 0))

/-- The negative partition of the input, in input order. -/
def negatives (arr : List Int) : List Int := arr.filter (fun num => decide (num < 0))

/-- Reference merge used in the proofs: alternate the heads of the two lists while
both are non-empty, then append what is left of the longer one. -/
def interleave : List Int → List Int → List Int
  | p :: ps, n :: ns => p :: n :: interleave ps ns
  | [], ns => ns
  | ps, [] => ps

/-- The property "every positive number is followed by a negative number throughout"
(Q1.js lines 2-4): whenever the element at index `k` is positive, index `k + 1` exists
and holds a negative element. -/
def PositiveFollowedByNegative (out : List Int) : Prop :=
  ∀ (k : Nat) (x : Int), out[k]? = some x → x > 0 → ∃ y, out[k + 1]? = some y ∧ y < 0

end Q1

namespace Q2

/-- A JavaScript string, as the list of its characters. -/
abbrev JSString := List Char

/-- `StrWhiteSpaceChar` of ECMA-262 (WhiteSpace and LineTerminator): TAB, LF, VT, FF,
CR, SP, NBSP, ZWNBSP, LS, PS and the characters of Unicode category Zs. -/
def isStrWhiteSpaceChar (c : Char) : Bool :=
  let n := c.toNat
  n == 0x09 || n == 0x0A || n == 0x0B || n == 0x0C || n == 0x0D || n == 0x20 ||
  n == 0xA0 || n == 0x1680 || (0x2000 ≤ n && n ≤ 0x200A) || n == 0x2028 || n == 0x2029 ||
  n == 0x202F || n == 0x205F || n == 0x3000 || n == 0xFEFF

/-- `String.prototype.trimStart`. -/
def trimStart (s : JSString) : JSString := s.dropWhile isStrWhiteSpaceChar

/-- `String.prototype.trimEnd`. -/
def trimEnd (s : JSString) : JSString := (s.reverse.dropWhile isStrWhiteSpaceChar).reverse

/-- `String.prototype.trim`. -/
def trim (s : JSString) : JSString := trimEnd (trimStart s)

/-- `String.prototype.split` with a one-character separator and no limit: the fields
between the separators, at least one field. -/
def split (sep : Char) : JSString → List JSString
  | [] => [[]]
  | c :: cs =>
    if c = sep then [] :: split sep cs
    else
      match split sep cs with
      | [] => [[c]]
      | f :: fs => (c :: f) :: fs

def isDecimalDigit (c : Char) : Bool := '0'.toNat ≤ c.toNat && c.toNat ≤ '9'.toNat

/-- Value of `c` as a digit of the given radix (10 or 16), when it is one. -/
def digitValue (radix : Nat) (c : Char) : Option Nat :=
  let n := c.toNat
  if '0'.toNat ≤ n && n ≤ '9'.toNat then some (n - '0'.toNat)
  else if radix = 16 && 'a'.toNat ≤ n && n ≤ 'f'.toNat then some (n - 'a'.toNat + 10)
  else if radix = 16 && 'A'.toNat ≤ n && n ≤ 'F'.toNat then some (n - 'A'.toNat + 10)
  else none

/-- `SignedInteger` of the `StringNumericLiteral` grammar: decimal digits, at least
one, after an optional sign. -/
def isSignedInteger : JSString → Bool
  | '+' :: ds => !ds.isEmpty && ds.all isDecimalDigit
  | '-' :: ds => !ds.isEmpty && ds.all isDecimalDigit
  | ds => !ds.isEmpty && ds.all isDecimalDigit

/-- An optional `ExponentPart`: nothing, or `e`/`E` and a `SignedInteger`. -/
def isExponentPartOpt : JSString → Bool
  | [] => true
  | c :: rest => (c == 'e' || c == 'E') && isSignedInteger rest

/-- `StrUnsignedDecimalLiteral`: `Infinity`, or digits with an optional fraction and an
optional exponent, with a digit before or after the dot. -/
def isStrUnsignedDecimalLiteral (s : JSString) : Bool :=
  s == "Infinity".toList ||
  (let intPart := s.takeWhile isDecimalDigit
   let rest := s.dropWhile isDecimalDigit
   match rest with
   | '.' :: afterDot =>
     let frac := afterDot.takeWhile isDecimalDigit
     (!intPart.isEmpty || !frac.isEmpty) && isExponentPartOpt (afterDot.dropWhile isDecimalDigit)
   | _ => !intPart.isEmpty && isExponentPartOpt rest)

/-- `NonDecimalIntegerLiteral` without separators: `0b`, `0o` or `0x` (either case)
and at least one digit of that radix. -/
def isNonDecimalIntegerLiteral : JSString → Bool
  | '0' :: p :: ds =>
    !ds.isEmpty &&
    (((p == 'b' || p == 'B') && ds.all (fun c => c == '0' || c == '1')) ||
     ((p == 'o' || p == 'O') && ds.all (fun c => '0'.toNat ≤ c.toNat && c.toNat ≤ '7'.toNat)) ||
     ((p == 'x' || p == 'X') && ds.all (fun c => (digitValue 16 c).isSome)))
  | _ => false

/-- `StrNumericLiteral`: a signed decimal literal or an unsigned non-decimal one. -/
def isStrNumericLiteral (s : JSString) : Bool :=
  isNonDecimalIntegerLiteral s ||
  (match s with
   | '+' :: r => isStrUnsignedDecimalLiteral r
   | '-' :: r => isStrUnsignedDecimalLiteral r
   | _ => isStrUnsignedDecimalLiteral s)

/-- `isNaN(v)` for `v` a string or `undefined` (`none`): `ToNumber(undefined)` is NaN;
`StringToNumber` is NaN exactly when the trimmed text is neither empty nor a
`StrNumericLiteral`. -/
def isNaN : Option JSString → Bool
  | none => true
  | some s => let t := trim s; !(t.isEmpty || isStrNumericLiteral t)

/-- A JavaScript Number as `parseInt` can return it: NaN, plus or minus Infinity, or a
finite integer value. The sign of a zero is not kept: `-0 <= 0` and `0 <= 0` agree. -/
inductive JSNumber where
  | nan
  | infinity (negative : Bool)
  | finite (value : Int)
deriving DecidableEq

/-- The double nearest to the natural number `n` (round to nearest, ties to even), as a
natural number; a result of `2 ^ 1024` or more stands for overflow to Infinity. -/
def roundToDouble (n : Nat) : Nat :=
  if n < 2 ^ 53 then n
  else
    let e := Nat.log2 n - 52
    let q := n / 2 ^ e
    let r := n % 2 ^ e
    let half := 2 ^ (e - 1)
    let q1 := if r > half ∨ (r = half ∧ q % 2 = 1) then q + 1 else q
    q1 * 2 ^ e

/-- The Number for `sign × mathInt`, the last step of `parseInt`: the nearest double,
which is Infinity of that sign from `2 ^ 1024` on. -/
def numberOfMathInt (sign : Int) (mathInt : Nat) : JSNumber :=
  if mathInt < 2 ^ 53 then JSNumber.finite (sign * mathInt)
  else if roundToDouble mathInt ≥ 2 ^ 1024 then JSNumber.infinity (decide (sign < 0))
  else JSNumber.finite (sign * roundToDouble mathInt)

/-- The steps of `parseInt(s)` (no radix argument, after ECMA-262) up to the integer
read: trim leading white space, read a sign, strip a `0x`/`0X` prefix (radix 16, else
10), take the longest run of digits of the radix. `none` when that run is empty, else
the sign and the value of the digits. -/
def parseIntDigits (s : JSString) : Option (Int × Nat) :=
  let s1 := trimStart s
  let sign : Int := match s1 with
    | '-' :: _ => -1
    | _ => 1
  let s2 := match s1 with
    | '+' :: r => r
    | '-' :: r => r
    | _ => s1
  let (radix, s3) : Nat × JSString := match s2 with
    | '0' :: 'x' :: r => (16, r)
    | '0' :: 'X' :: r => (16, r)
    | _ => (10, s2)
  let z := s3.takeWhile (fun c => (digitValue radix c).isSome)
  if z.isEmpty then none
  else some (sign, z.foldl (fun acc c => acc * radix + (digitValue radix c).getD 0) 0)

/-- `parseInt(s)` with no radix argument: NaN when no digit is read, else the Number for
the signed integer read. -/
def parseInt (s : JSString) : JSNumber :=
  match parseIntDigits s with
  | none => JSNumber.nan
  | some (sign, mathInt) => numberOfMathInt sign mathInt

/-- Truthiness `!v` for `v` a string or `undefined`: true when `v` is `undefined` or the
empty string. -/
def isFalsy : Option JSString → Bool
  | none => true
  | some s => s.isEmpty

/-- The comparison `x <= 0` on a Number: false for NaN and for plus Infinity, true for
minus Infinity. -/
def JSNumber.leZero : JSNumber → Bool
  | JSNumber.nan => false
  | JSNumber.infinity negative => negative
  | JSNumber.finite value => decide (value ≤ 0)

/-- `parseInt(age) <= 0` for `age` a string or `undefined`; `parseInt(undefined)` reads
the text `undefined`, which has no digit, and is NaN. -/
def parseIntLeZero (age : Option JSString) : Bool :=
  match age with
  | none => false
  | some s => (parseInt s).leZero

/-- Embedding of `validateGuestInput` (Q2.js lines 192-203), without the console
message. -/
def validateGuestInput (input : JSString) : Bool :=
  let parts := split ',' input
  let name := parts[0]?
  let age := parts[1]?
  if isFalsy name || isFalsy age || isNaN age || parseIntLeZero age then
    false
  else
    true

/-- Embedding of class `Guest` (Q2.js lines 22-45): its two fields. -/
structure Guest where
  name : JSString
  age : Int
deriving DecidableEq

/-- Embedding of `Guest.constructor` (Q2.js lines 29-32). -/
def Guest.constructor (name : JSString) (age : Int) : Guest :=
  { name := name, age := age }

/-- Embedding of `Guest.getEntrancePrice` (Q2.js lines 39-44). -/
def Guest.getEntrancePrice (this : Guest) : Int :=
  if this.age ≤ 2 then 0
  else if this.age < 18 then 100
  else if this.age < 60 then 500
  else 300

/-- Embedding of class `Ticket` (Q2.js lines 51-75): its four fields. -/
structure Ticket where
  id : Int
  date : JSString
  guests : List Guest
  totalPrice : Int
deriving DecidableEq

/-- Embedding of `Ticket.constructor` (Q2.js lines 58-63). -/
def Ticket.constructor (id : Int) (date : JSString) : Ticket :=
  { id := id, date := date, guests := [], totalPrice := 0 }

/-- Embedding of `Ticket.addGuest` (Q2.js lines 71-75), returning the updated ticket. -/
def Ticket.addGuest (this : Ticket) (name : JSString) (age : Int) : Ticket :=
  let guest := Guest.constructor name age
  { this with
    guests := this.guests ++ [guest]
    totalPrice := this.totalPrice + guest.getEntrancePrice }

/-- A finite sequence of `addGuest(name, age)` calls on a ticket, in call order. -/
def Ticket.addGuests (this : Ticket) (calls : List (JSString × Int)) : Ticket :=
  calls.foldl (fun t c => t.addGuest c.1 c.2) this

end Q2

namespace Q1

theorem positivesLoop_eq (ps : List Int) (i : Nat) (output : List Int) :
    positivesLoop ps i output = (max i ps.length, output ++ ps.drop i) := by
  generalize h : ps.length - i = n
  induction n generalizing i output with
  | zero =>
    rw [positivesLoop]
    have hi : ¬ i < ps.length := by omega
    rw [dif_neg hi]
    have h1 : max i ps.length = i := by omega
    have h2 : ps.drop i = [] := List.drop_eq_nil_of_le (by omega)
    rw [h1, h2, List.append_nil]
  | succ n ih =>
    rw [positivesLoop]
    have hi : i < ps.length := by omega
    rw [dif_pos hi, ih (i + 1) _ (by omega)]
    have h1 : max (i + 1) ps.length = max i ps.length := by omega
    have h2 : ps.drop i = ps.get ⟨i, hi⟩ :: ps.drop (i + 1) := by
      simp
    rw [h1, h2]
    simp

theorem negativesLoop_eq (ns : List Int) (j : Nat) (output : List Int) :
    negativesLoop ns j output = (max j ns.length, output ++ ns.drop j) := by
  generalize h : ns.length - j = n
  induction n generalizing j output with
  | zero =>
    rw [negativesLoop]
    have hj : ¬ j < ns.length := by omega
    rw [dif_neg hj]
    have h1 : max j ns.length = j := by omega
    have h2 : ns.drop j = [] := List.drop_eq_nil_of_le (by omega)
    rw [h1, h2, List.append_nil]
  | succ n ih =>
    rw [negativesLoop]
    have hj : j < ns.length := by omega
    rw [dif_pos hj, ih (j + 1) _ (by omega)]
    have h1 : max (j + 1) ns.length = max j ns.length := by omega
    have h2 : ns.drop j = ns.get ⟨j, hj⟩ :: ns.drop (j + 1) := by
      simp
    rw [h1, h2]
    simp

theorem interleave_nil_left (ns : List Int) : interleave [] ns = ns := by
  cases ns <;> rfl

theorem interleave_nil_right (ps : List Int) : interleave ps [] = ps := by
  cases ps <;> rfl

theorem interleave_cons_cons (p n : Int) (ps ns : List Int) :
    interleave (p :: ps) (n :: ns) = p :: n :: interleave ps ns := rfl

/-- The three loops, run one after the other from the state `(i, j, output)`, push the
merge of what the cursors have not yet consumed. -/
theorem loops_eq (ps ns : List Int) (i j : Nat) (output : List Int) :
    (negativesLoop ns (alternateLoop ps ns i j output).2.1
      (positivesLoop ps (alternateLoop ps ns i j output).1
        (alternateLoop ps ns i j output).2.2).2).2
      = output ++ interleave (ps.drop i) (ns.drop j) := by
  generalize h : ps.length - i = n
  induction n generalizing i j output with
  | zero =>
    rw [alternateLoop]
    have hi : ¬ (i < ps.length ∧ j < ns.length) := by omega
    rw [dif_neg hi, positivesLoop_eq, negativesLoop_eq]
    have h2 : ps.drop i = [] := List.drop_eq_nil_of_le (by omega)
    simp [h2, interleave_nil_left]
  | succ n ih =>
    rw [alternateLoop]
    by_cases hj : j < ns.length
    · have hi : i < ps.length := by omega
      rw [dif_pos ⟨hi, hj⟩, ih (i + 1) (j + 1) _ (by omega)]
      have h2 : ps.drop i = ps.get ⟨i, hi⟩ :: ps.drop (i + 1) := by simp
      have h3 : ns.drop j = ns.get ⟨j, hj⟩ :: ns.drop (j + 1) := by simp
      rw [h2, h3, interleave_cons_cons]
      simp
    · have hi : ¬ (i < ps.length ∧ j < ns.length) := fun h => hj h.2
      rw [dif_neg hi, positivesLoop_eq, negativesLoop_eq]
      have h3 : ns.drop j = [] := List.drop_eq_nil_of_le (by omega)
      simp [h3, interleave_nil_right]

/-- The embedded function is the merge of the two partitions. -/
theorem alternateArrangement_eq (arr : List Int) :
    alternateArrangement arr = interleave (positives arr) (negatives arr) := by
  unfold alternateArrangement positives negatives
  simpa using loops_eq (arr.filter (fun num => decide (num > 0)))
    (arr.filter (fun num => decide (num < 0))) 0 0 []

theorem length_interleave (ps ns : List Int) :
    (interleave ps ns).length = ps.length + ns.length := by
  induction ps generalizing ns with
  | nil => simp [interleave_nil_left]
  | cons p ps ih =>
    cases ns with
    | nil => simp [interleave_nil_right]
    | cons n ns => simp [interleave_cons_cons, ih]; omega

theorem interleave_perm (ps ns : List Int) : (interleave ps ns).Perm (ps ++ ns) := by
  induction ps generalizing ns with
  | nil => simp [interleave_nil_left]
  | cons p ps ih =>
    cases ns with
    | nil => simp [interleave_nil_right]
    | cons n ns =>
      rw [interleave_cons_cons, List.cons_append]
      refine List.Perm.cons p ?_
      exact ((ih ns).cons n).trans List.perm_middle.symm

/-- Filtering a merge by a test that holds on the whole first list and fails on the
whole second list gives back the first list. -/
theorem filter_interleave_left (q : Int → Bool) (ps ns : List Int)
    (hp : ∀ x ∈ ps, q x = true) (hn : ∀ x ∈ ns, q x = false) :
    (interleave ps ns).filter q = ps := by
  induction ps generalizing ns with
  | nil =>
    rw [interleave_nil_left]
    exact List.filter_eq_nil_iff.mpr (fun x hx => by simp [hn x hx])
  | cons p ps ih =>
    have hp0 : q p = true := hp p (List.mem_cons_self _ _)
    have hps : ∀ x ∈ ps, q x = true := fun x hx => hp x (List.mem_cons_of_mem _ hx)
    cases ns with
    | nil =>
      rw [interleave_nil_right]
      exact List.filter_eq_self.mpr hp
    | cons n ns =>
      have hn0 : q n = false := hn n (List.mem_cons_self _ _)
      have hns : ∀ x ∈ ns, q x = false := fun x hx => hn x (List.mem_cons_of_mem _ hx)
      rw [interleave_cons_cons, List.filter_cons_of_pos hp0,
        List.filter_cons_of_neg (by simp [hn0]), ih ns hps hns]

/-- Filtering a merge by a test that fails on the whole first list and holds on the
whole second list gives back the second list. -/
theorem filter_interleave_right (q : Int → Bool) (ps ns : List Int)
    (hp : ∀ x ∈ ps, q x = false) (hn : ∀ x ∈ ns, q x = true) :
    (interleave ps ns).filter q = ns := by
  induction ps generalizing ns with
  | nil =>
    rw [interleave_nil_left]
    exact List.filter_eq_self.mpr hn
  | cons p ps ih =>
    have hp0 : q p = false := hp p (List.mem_cons_self _ _)
    have hps : ∀ x ∈ ps, q x = false := fun x hx => hp x (List.mem_cons_of_mem _ hx)
    cases ns with
    | nil =>
      rw [interleave_nil_right]
      exact List.filter_eq_nil_iff.mpr (fun x hx => by simp [hp x hx])
    | cons n ns =>
      have hn0 : q n = true := hn n (List.mem_cons_self _ _)
      have hns : ∀ x ∈ ns, q x = true := fun x hx => hn x (List.mem_cons_of_mem _ hx)
      rw [interleave_cons_cons, List.filter_cons_of_neg (by simp [hp0]),
        List.filter_cons_of_pos hn0, ih ns hps hns]

theorem positives_pos (arr : List Int) : ∀ x ∈ positives arr, 0 < x := by
  intro x hx
  simpa using (List.mem_filter.mp hx).2

theorem negatives_neg (arr : List Int) : ∀ x ∈ negatives arr, x < 0 := by
  intro x hx
  simpa using (List.mem_filter.mp hx).2

theorem positives_alternateArrangement (arr : List Int) :
    positives (alternateArrangement arr) = positives arr := by
  rw [alternateArrangement_eq]
  exact filter_interleave_left _ _ _
    (fun x hx => by simpa using positives_pos arr x hx)
    (fun x hx => by
      have := negatives_neg arr x hx
      simp only [decide_eq_false_iff_not]; omega)

theorem negatives_alternateArrangement (arr : List Int) :
    negatives (alternateArrangement arr) = negatives arr := by
  rw [alternateArrangement_eq]
  exact filter_interleave_right _ _ _
    (fun x hx => by
      have := positives_pos arr x hx
      simp only [decide_eq_false_iff_not]; omega)
    (fun x hx => by simpa using negatives_neg arr x hx)

theorem getElem?_interleave (ps ns : List Int) (k : Nat)
    (hp : k < ps.length) (hn : k < ns.length) :
    (interleave ps ns)[2 * k]? = ps[k]? ∧ (interleave ps ns)[2 * k + 1]? = ns[k]? := by
  induction k generalizing ps ns with
  | zero =>
    cases ps with
    | nil => simp at hp
    | cons p ps =>
      cases ns with
      | nil => simp at hn
      | cons n ns => simp [interleave_cons_cons]
  | succ k ih =>
    cases ps with
    | nil => simp at hp
    | cons p ps =>
      cases ns with
      | nil => simp at hn
      | cons n ns =>
        have h1 : 2 * (k + 1) = 2 * k + 1 + 1 := by omega
        have hp1 : k < ps.length := by simpa using hp
        have hn1 : k < ns.length := by simpa using hn
        rw [interleave_cons_cons, h1]
        simp only [List.getElem?_cons_succ]
        exact ih ps ns hp1 hn1

theorem drop_interleave (ps ns : List Int) (k : Nat)
    (hp : k ≤ ps.length) (hn : k ≤ ns.length) :
    (interleave ps ns).drop (2 * k) = interleave (ps.drop k) (ns.drop k) := by
  induction k generalizing ps ns with
  | zero => simp
  | succ k ih =>
    cases ps with
    | nil => simp at hp
    | cons p ps =>
      cases ns with
      | nil => simp at hn
      | cons n ns =>
        have h1 : 2 * (k + 1) = 2 * k + 1 + 1 := by omega
        have hp1 : k ≤ ps.length := by simpa using hp
        have hn1 : k ≤ ns.length := by simpa using hn
        rw [interleave_cons_cons, h1]
        simp only [List.drop_succ_cons]
        exact ih ps ns hp1 hn1

theorem drop_interleave_min (ps ns : List Int) :
    (interleave ps ns).drop (2 * min ps.length ns.length)
      = ps.drop (min ps.length ns.length) ++ ns.drop (min ps.length ns.length) := by
  rw [drop_interleave ps ns _ (Nat.min_le_left _ _) (Nat.min_le_right _ _)]
  by_cases h : ps.length ≤ ns.length
  · have h2 : ps.drop (min ps.length ns.length) = [] :=
      List.drop_eq_nil_of_le (by omega)
    rw [h2, interleave_nil_left, List.nil_append]
  · have h2 : ns.drop (min ps.length ns.length) = [] :=
      List.drop_eq_nil_of_le (by omega)
    rw [h2, interleave_nil_right, List.append_nil]

theorem positives_append_negatives_perm (arr : List Int) :
    (positives arr ++ negatives arr).Perm (arr.filter (fun x => decide (x ≠ 0))) := by
  induction arr with
  | nil => simp [positives, negatives]
  | cons x t ih =>
    unfold positives negatives at ih ⊢
    rcases lt_trichotomy x 0 with hx | hx | hx
    · have h1 : ¬ x > 0 := by omega
      have h2 : x ≠ 0 := by omega
      rw [List.filter_cons_of_neg (by simpa using h1), List.filter_cons_of_pos (by simpa using hx),
        List.filter_cons_of_pos (by simpa using h2)]
      exact List.perm_middle.trans (ih.cons x)
    · subst hx
      simpa using ih
    · have h1 : ¬ x < 0 := by omega
      have h2 : x ≠ 0 := by omega
      rw [List.filter_cons_of_pos (by simpa using hx), List.filter_cons_of_neg (by simpa using h1),
        List.filter_cons_of_pos (by simpa using h2), List.cons_append]
      exact ih.cons x

/-- C1: with `P = positives arr`, `N = negatives arr` and `m = min (len P) (len N)`, the
output has `P[k]` at index `2k` and `N[k]` at index `2k+1` for every `k < m`, and from
index `2m` on it is `P` without its first `m` elements followed by `N` without its first
`m` elements; the second literal scenario evaluates as stated. -/
theorem C1_alternate_then_tail (arr : List Int) :
    (∀ k (hk : k < min (positives arr).length (negatives arr).length),
      (alternateArrangement arr)[2 * k]?
          = some ((positives arr).get ⟨k, lt_of_lt_of_le hk (Nat.min_le_left _ _)⟩) ∧
      (alternateArrangement arr)[2 * k + 1]?
          = some ((negatives arr).get ⟨k, lt_of_lt_of_le hk (Nat.min_le_right _ _)⟩)) ∧
    (alternateArrangement arr).drop (2 * min (positives arr).length (negatives arr).length)
      = (positives arr).drop (min (positives arr).length (negatives arr).length)
        ++ (negatives arr).drop (min (positives arr).length (negatives arr).length) ∧
    alternateArrangement [-3, 1, 2, 4, -6, 8, -8, -1, -3, -4, -5, -6, -7]
      = [1, -3, 2, -6, 4, -8, 8, -1, -3, -4, -5, -6, -7] := by
  refine ⟨?_, ?_, ?_⟩
  · intro k hk
    have hp : k < (positives arr).length := lt_of_lt_of_le hk (Nat.min_le_left _ _)
    have hn : k < (negatives arr).length := lt_of_lt_of_le hk (Nat.min_le_right _ _)
    rw [alternateArrangement_eq]
    obtain ⟨h1, h2⟩ := getElem?_interleave (positives arr) (negatives arr) k hp hn
    rw [h1, h2, List.getElem?_eq_getElem hp, List.getElem?_eq_getElem hn]
    exact ⟨rfl, rfl⟩
  · rw [alternateArrangement_eq]
    exact drop_interleave_min _ _
  · rw [alternateArrangement_eq]
    decide

/-- C1 at `[-3, 1, 2, -6]` and `k = 1`: index 2 holds the second positive and index 3
the second negative. -/
theorem C1_alternate_then_tail_witness :
    (alternateArrangement [-3, 1, 2, -6])[2]? = some 2 ∧
    (alternateArrangement [-3, 1, 2, -6])[3]? = some (-6) :=
  (C1_alternate_then_tail [-3, 1, 2, -6]).1 1 (by decide)

/-- C3: restricted to either sign class, the output is the input restricted to that
class, in the same order. -/
theorem C3_sign_classes_preserved (arr : List Int) :
    (alternateArrangement arr).filter (fun x => decide (x > 0))
        = arr.filter (fun x => decide (x > 0)) ∧
    (alternateArrangement arr).filter (fun x => decide (x < 0))
        = arr.filter (fun x => decide (x < 0)) :=
  ⟨positives_alternateArrangement arr, negatives_alternateArrangement arr⟩

/-- C4: the output is a permutation of the input with every zero removed, it contains
no zero, and `[0, 1, -1, 0]` gives `[1, -1]`. -/
theorem C4_perm_without_zeros (arr : List Int) :
    (alternateArrangement arr).Perm (arr.filter (fun x => decide (x ≠ 0))) ∧
    (0 : Int) ∉ alternateArrangement arr ∧
    alternateArrangement [0, 1, -1, 0] = [1, -1] := by
  have hperm : (alternateArrangement arr).Perm (arr.filter (fun x => decide (x ≠ 0))) := by
    rw [alternateArrangement_eq]
    exact (interleave_perm _ _).trans (positives_append_negatives_perm arr)
  refine ⟨hperm, ?_, ?_⟩
  · intro h0
    have := (List.mem_filter.mp (hperm.mem_iff.mp h0)).2
    simp at this
  · rw [alternateArrangement_eq]
    decide

/-- C5: the output length is the number of positive plus the number of negative
elements of the input; it is at most the input length, with equality exactly when the
input contains no zero. -/
theorem C5_length (arr : List Int) :
    (alternateArrangement arr).length
        = arr.countP (fun x => decide (x > 0)) + arr.countP (fun x => decide (x < 0)) ∧
    (alternateArrangement arr).length ≤ arr.length ∧
    ((alternateArrangement arr).length = arr.length ↔ (0 : Int) ∉ arr) := by
  have hperm : (alternateArrangement arr).Perm (arr.filter (fun x => decide (x ≠ 0))) := by
    rw [alternateArrangement_eq]
    exact (interleave_perm _ _).trans (positives_append_negatives_perm arr)
  refine ⟨?_, ?_, ?_⟩
  · rw [alternateArrangement_eq, length_interleave, List.countP_eq_length_filter,
      List.countP_eq_length_filter]
    rfl
  · rw [hperm.length_eq]
    exact List.length_filter_le _ _
  · rw [hperm.length_eq, List.filter_length_eq_length]
    constructor
    · intro h h0
      simpa using h 0 h0
    · intro h a ha
      have : a ≠ 0 := fun e => h (e ▸ ha)
      simpa using this

/-- C6: `alternateArrangement` is idempotent. -/
theorem C6_idempotent (arr : List Int) :
    alternateArrangement (alternateArrangement arr) = alternateArrangement arr := by
  rw [alternateArrangement_eq (alternateArrangement arr), positives_alternateArrangement,
    negatives_alternateArrangement, ← alternateArrangement_eq]

/-- C7: an input whose elements are all positive, or all negative (the empty input
included), is returned unchanged. -/
theorem C7_single_sign_unchanged (arr : List Int)
    (h : (∀ x ∈ arr, x > 0) ∨ (∀ x ∈ arr, x < 0)) :
    alternateArrangement arr = arr := by
  rw [alternateArrangement_eq]
  unfold positives negatives
  rcases h with h | h
  · have h1 : arr.filter (fun num => decide (num > 0)) = arr :=
      List.filter_eq_self.mpr (fun x hx => by simpa using h x hx)
    have h2 : arr.filter (fun num => decide (num < 0)) = [] :=
      List.filter_eq_nil_iff.mpr (fun x hx => by have := h x hx; simp; omega)
    rw [h1, h2, interleave_nil_right]
  · have h1 : arr.filter (fun num => decide (num > 0)) = [] :=
      List.filter_eq_nil_iff.mpr (fun x hx => by have := h x hx; simp; omega)
    have h2 : arr.filter (fun num => decide (num < 0)) = arr :=
      List.filter_eq_self.mpr (fun x hx => by simpa using h x hx)
    rw [h1, h2, interleave_nil_left]

/-- C7 at the three literal inputs `[1,2,3]`, `[-1,-2]` and `[]`. -/
theorem C7_single_sign_unchanged_witness :
    alternateArrangement [1, 2, 3] = [1, 2, 3] ∧
    alternateArrangement [-1, -2] = [-1, -2] ∧
    alternateArrangement [] = [] :=
  ⟨C7_single_sign_unchanged [1, 2, 3] (Or.inl (by decide)),
   C7_single_sign_unchanged [-1, -2] (Or.inr (by decide)),
   C7_single_sign_unchanged [] (Or.inl (by decide))⟩

theorem followed_cons_cons (p n : Int) (rest : List Int) (hn : n < 0) :
    PositiveFollowedByNegative (p :: n :: rest) ↔ PositiveFollowedByNegative rest := by
  constructor
  · intro h k x hk hx
    have := h (k + 2) x (by simpa using hk) hx
    simpa using this
  · intro h k x hk hx
    match k with
    | 0 => exact ⟨n, by simp, hn⟩
    | 1 =>
      have : n = x := by simpa using hk
      omega
    | k + 2 =>
      have := h k x (by simpa using hk) hx
      simpa using this

theorem followed_interleave (ps ns : List Int)
    (hp : ∀ x ∈ ps, 0 < x) (hn : ∀ x ∈ ns, x < 0) :
    PositiveFollowedByNegative (interleave ps ns) ↔ ps.length ≤ ns.length := by
  induction ps generalizing ns with
  | nil =>
    rw [interleave_nil_left]
    simp only [List.length_nil, Nat.zero_le, iff_true]
    intro k x hk hx
    have := hn x (List.getElem?_mem hk)
    omega
  | cons p ps ih =>
    have hps : ∀ x ∈ ps, 0 < x := fun x hx => hp x (List.mem_cons_of_mem _ hx)
    cases ns with
    | nil =>
      rw [interleave_nil_right]
      simp only [List.length_cons, List.length_nil, Nat.le_zero_eq, Nat.add_one_ne_zero,
        iff_false]
      intro h
      obtain ⟨y, hy, hy0⟩ := h 0 p (by simp) (hp p (List.mem_cons_self _ _))
      have hy1 : ps[0]? = some y := by simpa using hy
      have := hps y (List.getElem?_mem hy1)
      omega
    | cons n ns =>
      have hns : ∀ x ∈ ns, x < 0 := fun x hx => hn x (List.mem_cons_of_mem _ hx)
      rw [interleave_cons_cons, followed_cons_cons p n _ (hn n (List.mem_cons_self _ _)),
        ih ns hps hns]
      simp

/-- C2: at `[1, 2, -1]`, an input of positive and negative integers, the output is
`[1, -1, 2]`; its last element is positive and has no successor, so not every positive
number of the output is followed by a negative number. -/
theorem C2_surplus_positive_not_followed :
    alternateArrangement [1, 2, -1] = [1, -1, 2] ∧
    (alternateArrangement [1, 2, -1])[2]? = some 2 ∧
    (alternateArrangement [1, 2, -1])[3]? = none ∧
    ¬ PositiveFollowedByNegative (alternateArrangement [1, 2, -1]) := by
  have h : alternateArrangement [1, 2, -1] = [1, -1, 2] := by
    rw [alternateArrangement_eq]; decide
  refine ⟨h, ?_, ?_, ?_⟩
  · rw [h]; rfl
  · rw [h]; rfl
  · rw [h]
    intro hf
    obtain ⟨y, hy, _⟩ := hf 2 2 (by simp) (by decide)
    simp at hy

/-- The outputs on which every positive number is followed by a negative number are
those of the inputs with at most as many positive elements as negative ones. -/
theorem followed_iff_countP_le (arr : List Int) :
    PositiveFollowedByNegative (alternateArrangement arr) ↔
      arr.countP (fun x => decide (x > 0)) ≤ arr.countP (fun x => decide (x < 0)) := by
  rw [alternateArrangement_eq,
    followed_interleave _ _ (positives_pos arr) (negatives_neg arr),
    List.countP_eq_length_filter, List.countP_eq_length_filter]
  rfl

end Q1

namespace Q2

theorem addGuests_spec (t : Ticket) (calls : List (JSString × Int)) :
    (t.addGuests calls).guests = t.guests ++ calls.map (fun c => Guest.constructor c.1 c.2) ∧
    (t.addGuests calls).totalPrice
      = t.totalPrice + (calls.map (fun c => (Guest.constructor c.1 c.2).getEntrancePrice)).sum ∧
    (t.addGuests calls).id = t.id ∧ (t.addGuests calls).date = t.date := by
  induction calls generalizing t with
  | nil => simp [Ticket.addGuests]
  | cons c cs ih =>
    have h := ih (t.addGuest c.1 c.2)
    simp only [Ticket.addGuests, List.foldl_cons] at h ⊢
    obtain ⟨h1, h2, h3, h4⟩ := h
    refine ⟨?_, ?_, ?_, ?_⟩
    · rw [h1]; simp [Ticket.addGuest]
    · rw [h2]; simp [Ticket.addGuest]; ring
    · rw [h3]; rfl
    · rw [h4]; rfl

theorem log2_two_pow_53_add_one : Nat.log2 9007199254740993 = 53 := by
  rw [Nat.log2_eq_log_two]
  exact (Nat.log_eq_iff (Or.inl (by decide))).mpr ⟨by norm_num, by norm_num⟩

/-- The integer `2 ^ 53 + 1` lies halfway between two doubles and rounds to the even
one, `2 ^ 53`. -/
theorem roundToDouble_tie : roundToDouble 9007199254740993 = 9007199254740992 := by
  unfold roundToDouble
  rw [log2_two_pow_53_add_one]
  norm_num

/-- The call `parseInt("9007199254740993")` gives the double 9007199254740992. -/
theorem parseInt_rounds :
    parseInt "9007199254740993".toList = JSNumber.finite 9007199254740992 := by
  have h : parseIntDigits "9007199254740993".toList = some (1, 9007199254740993) := by
    decide
  unfold parseInt
  rw [h]
  simp only [numberOfMathInt]
  rw [roundToDouble_tie]
  norm_num

/-- Digits below `2 ^ 53` are read exactly, after leading white space and a sign. -/
theorem parseInt_small :
    parseInt " 25 ".toList = JSNumber.finite 25 ∧
    parseInt "-12abc".toList = JSNumber.finite (-12) ∧
    parseInt "0x1F".toList = JSNumber.finite 31 ∧
    parseInt "Infinity".toList = JSNumber.nan := by
  decide

/-- What acceptance by `validateGuestInput` does guarantee: two non-empty leading
fields, the second a numeric string for `isNaN`, on which `parseInt` is NaN, plus
Infinity, or a positive finite integer. -/
theorem validateGuestInput_true (input : JSString) (h : validateGuestInput input = true) :
    ∃ name age, (split ',' input)[0]? = some name ∧ (split ',' input)[1]? = some age ∧
      name ≠ [] ∧ age ≠ [] ∧ isNaN (some age) = false ∧
      (parseInt age = JSNumber.nan ∨ parseInt age = JSNumber.infinity false ∨
        ∃ n, parseInt age = JSNumber.finite n ∧ 0 < n) := by
  unfold validateGuestInput at h
  simp only [Bool.or_eq_true, ite_eq_right_iff, Bool.false_eq_true, imp_false, not_or,
    Bool.not_eq_true] at h
  obtain ⟨⟨⟨h1, h2⟩, h3⟩, h4⟩ := h
  cases hn : (split ',' input)[0]? with
  | none => rw [hn] at h1; simp [isFalsy] at h1
  | some name =>
    cases ha : (split ',' input)[1]? with
    | none => rw [ha] at h2; simp [isFalsy] at h2
    | some age =>
      rw [hn] at h1
      rw [ha] at h2 h3 h4
      refine ⟨name, age, rfl, rfl, ?_, ?_, h3, ?_⟩
      · intro e; subst e; simp [isFalsy] at h1
      · intro e; subst e; simp [isFalsy] at h2
      · simp only [parseIntLeZero] at h4
        cases hp : parseInt age with
        | nan => exact Or.inl rfl
        | infinity negative =>
          rw [hp] at h4
          simp only [JSNumber.leZero] at h4
          subst h4
          exact Or.inr (Or.inl rfl)
        | finite n =>
          rw [hp] at h4
          simp only [JSNumber.leZero, decide_eq_false_iff_not] at h4
          exact Or.inr (Or.inr ⟨n, rfl, by omega⟩)

/-- C8: `validateGuestInput` returns true on `Tom,.5`, whose second field `.5` is a
numeric string for `isNaN` but has no leading digits for `parseInt`: `parseInt` gives
NaN, the test `parseInt(age) <= 0` is false, and the age later passed to
`Ticket.addGuest`, `parseInt` of the trimmed field, is NaN. -/
theorem C8_validateGuestInput_accepts_NaN_age :
    validateGuestInput "Tom,.5".toList = true ∧
    split ',' "Tom,.5".toList = ["Tom".toList, ".5".toList] ∧
    isNaN (some ".5".toList) = false ∧
    parseInt ".5".toList = JSNumber.nan ∧
    parseInt (trim ".5".toList) = JSNumber.nan := by
  decide

/-- C9: `getEntrancePrice` is 0 for age at most 2, 100 for ages 3 to 17, 500 for ages 18
to 59 and 300 from age 60; the brackets cover every integer age and do not overlap, the
result is one of 0, 100, 500, 300, and it does not depend on the name. -/
theorem C9_entrance_price (name : JSString) (age : Int) :
    (age ≤ 2 → (Guest.constructor name age).getEntrancePrice = 0) ∧
    (3 ≤ age ∧ age ≤ 17 → (Guest.constructor name age).getEntrancePrice = 100) ∧
    (18 ≤ age ∧ age ≤ 59 → (Guest.constructor name age).getEntrancePrice = 500) ∧
    (60 ≤ age → (Guest.constructor name age).getEntrancePrice = 300) ∧
    (age ≤ 2 ∨ (3 ≤ age ∧ age ≤ 17) ∨ (18 ≤ age ∧ age ≤ 59) ∨ 60 ≤ age) ∧
    ¬ (age ≤ 2 ∧ 3 ≤ age) ∧ ¬ (age ≤ 17 ∧ 18 ≤ age) ∧ ¬ (age ≤ 59 ∧ 60 ≤ age) ∧
    (Guest.constructor name age).getEntrancePrice ∈ ([0, 100, 500, 300] : List Int) ∧
    (∀ other : JSString,
      (Guest.constructor other age).getEntrancePrice
        = (Guest.constructor name age).getEntrancePrice) := by
  simp only [Guest.getEntrancePrice, Guest.constructor]
  refine ⟨?_, ?_, ?_, ?_, ?_, ?_, ?_, ?_, ?_, ?_⟩
  · intro h; rw [if_pos h]
  · intro h
    rw [if_neg (by omega), if_pos (by omega)]
  · intro h
    rw [if_neg (by omega), if_neg (by omega), if_pos (by omega)]
  · intro h
    rw [if_neg (by omega), if_neg (by omega), if_neg (by omega)]
  · omega
  · omega
  · omega
  · omega
  · split_ifs <;> simp
  · intro _; trivial

/-- C9 at the bracket boundaries 2, 3, 17, 18, 59 and 60. -/
theorem C9_entrance_price_witness :
    (Guest.constructor "Tom".toList 2).getEntrancePrice = 0 ∧
    (Guest.constructor "Tom".toList 3).getEntrancePrice = 100 ∧
    (Guest.constructor "Tom".toList 17).getEntrancePrice = 100 ∧
    (Guest.constructor "Tom".toList 18).getEntrancePrice = 500 ∧
    (Guest.constructor "Tom".toList 59).getEntrancePrice = 500 ∧
    (Guest.constructor "Tom".toList 60).getEntrancePrice = 300 :=
  ⟨(C9_entrance_price "Tom".toList 2).1 (by decide),
   (C9_entrance_price "Tom".toList 3).2.1 (by decide),
   (C9_entrance_price "Tom".toList 17).2.1 (by decide),
   (C9_entrance_price "Tom".toList 18).2.2.1 (by decide),
   (C9_entrance_price "Tom".toList 59).2.2.1 (by decide),
   (C9_entrance_price "Tom".toList 60).2.2.2.1 (by decide)⟩

/-- C10: a ticket made by the constructor has no guests and total price 0; after any
finite sequence of `addGuest` calls the stored guests, read back as (name, age) pairs,
are exactly the arguments of the calls in call order, the total price is the sum of
`getEntrancePrice` over the stored guests, and id and date are those given to the
constructor. -/
theorem C10_ticket_total_price (id : Int) (date : JSString) (calls : List (JSString × Int)) :
    (Ticket.constructor id date).guests = [] ∧
    (Ticket.constructor id date).totalPrice = 0 ∧
    (Ticket.constructor id date).id = id ∧
    (Ticket.constructor id date).date = date ∧
    (((Ticket.constructor id date).addGuests calls).guests.map (fun g => (g.name, g.age)))
      = calls ∧
    ((Ticket.constructor id date).addGuests calls).totalPrice
      = (((Ticket.constructor id date).addGuests calls).guests.map
          Guest.getEntrancePrice).sum ∧
    ((Ticket.constructor id date).addGuests calls).id = id ∧
    ((Ticket.constructor id date).addGuests calls).date = date := by
  obtain ⟨h1, h2, h3, h4⟩ := addGuests_spec (Ticket.constructor id date) calls
  refine ⟨rfl, rfl, rfl, rfl, ?_, ?_, ?_, ?_⟩
  · rw [h1]
    simp [Ticket.constructor, Guest.constructor, List.map_map, Function.comp_def]
  · rw [h2, h1]
    simp [Ticket.constructor, List.map_map, Function.comp_def]
  · rw [h3]; rfl
  · rw [h4]; rfl

/-- Two `addGuest` calls evaluated: the stored guests, the total price 100 + 300, id and
date. -/
theorem addGuests_two_calls :
    ((Ticket.constructor 7 "1/2/2024".toList).addGuests
        [("Ann".toList, 5), ("Bob".toList, 70)])
      = { id := 7, date := "1/2/2024".toList,
          guests := [{ name := "Ann".toList, age := 5 }, { name := "Bob".toList, age := 70 }],
          totalPrice := 400 } := by
  decide

end Q2
